import Mathlib

/-!
Verification of the access-resolution engine in `repo_manager.py`
(`nrfconnect` repository access manager).

The Python module is embedded shallowly:

* Python dicts become association lists `List (String × β)` with the
  insertion-order/overwrite assignment semantics of `dictSet`;
* the remote GitHub system becomes an explicit `RemoteState` record; per the
  remote API contract, a repository's collaborator-membership probe
  (`has_in_collaborators`) and its collaborator listing (`get_collaborators`)
  read the same underlying collaborator relation, and the
  `affiliation="outside"` listing is the restriction of the collaborator list
  to users outside the owning organization;
* Python exceptions that escape a function become `Except PyExn`.
-/

/-- The fixed repository roster, `REPOSITORIES` in `repo_manager.py`. -/
def REPOSITORIES : List String :=
  [ "nrfconnect/sdk-nrf-next",
    "nrfconnect/sdk-ic-next",
    "nrfconnect/sdk-zephyr-next",
    "nrfconnect/sdk-secdom",
    "nrfconnect/sdk-sysctrl",
    "nrfconnect/nrf-regtool",
    "nrfconnect/nrfs",
    "nrfconnect/sdk-hal_nordic-next",
    "nrfconnect/sdk-nrfxlib-next",
    "nrfconnect/sdk-connectedhomeip-next",
    "NordicSemiconductor/nrfutil-package-index-external-confidential" ]

/-- `LIST_USER_CACHE_THRESHOLD` in `repo_manager.py`. -/
def LIST_USER_CACHE_THRESHOLD : Nat := 3

/-- The `Access` enumeration of `repo_manager.py` (its values are display
strings, irrelevant here). -/
inductive Access where
  | MEMBER
  | OUTSIDE
  | PENDING
  | NO_ACCESS
deriving DecidableEq, Repr

/-- The short name of a repository: the `repo.name` attribute of the object
returned by `get_repo("owner/name")`, i.e. the part of the identifier after
the slash (cf. `repo.split("/")[1]` in `print_repo_access`). -/
def repoName (full : String) : String :=
  ⟨(full.toList.dropWhile (fun c => c ≠ '/')).drop 1⟩

/-- The remote (GitHub) state visible to `RepoManager`, per the remote API
contract.  Users are identified by their login string.

* `userExists u`: whether `get_user(u)` succeeds (otherwise it raises
  `GithubException`);
* `collaborators rf`: the collaborator list of the repository with full name
  `rf` — read both by `has_in_collaborators` and by `get_collaborators()`
  (one underlying relation at the remote);
* `orgOutside rf u`: whether user `u` counts as an *outside* collaborator of
  `rf`, i.e. is not a member of the owning organization — the
  `affiliation="outside"` filter of the collaborator list;
* `pending rf`: invitees of the pending invitations of `rf`
  (`[invite.invitee for invite in repo.get_pending_invitations()]`);
* `rateRemaining`: the remote's current remaining core-request budget. -/
structure RemoteState where
  userExists : String → Bool
  collaborators : String → List String
  orgOutside : String → String → Bool
  pending : String → List String
  rateRemaining : Nat

/-- `repo.get_collaborators(affiliation="outside")`: the collaborator list
restricted to users outside the owning organization. -/
def outsideCollaborators (st : RemoteState) (rf : String) : List String :=
  (st.collaborators rf).filter (fun u => st.orgOutside rf u)

/-- `repo.has_in_collaborators(user)`: the remote membership probe, consistent
with the collaborator listing of the same remote state. -/
def has_in_collaborators (st : RemoteState) (rf : String) (u : String) : Bool :=
  decide (u ∈ st.collaborators rf)

/-- The key list of an association-list dictionary, in insertion order. -/
def keys {β : Type} (d : List (String × β)) : List String :=
  d.map Prod.fst

/-- Python dict assignment `d[k] = v`: overwrite in place if the key is
present, else append (insertion order preserved). -/
def dictSet {β : Type} (d : List (String × β)) (k : String) (v : β) :
    List (String × β) :=
  if k ∈ keys d then d.map (fun p => if p.1 = k then (k, v) else p)
  else d ++ [(k, v)]

/-- Python dict read `d[k]` (as an option; `none` corresponds to `KeyError`). -/
def dlookup {β : Type} : List (String × β) → String → Option β
  | [], _ => none
  | (k', v) :: d, k => if k' = k then some v else dlookup d k

/-- The value written last at key `k` by the loop over `xs` (skipping
elements that write nothing). -/
def lastVal {α β : Type} (key : α → String) (newVal : α → Option β) :
    List α → String → Option β
  | [], _ => none
  | x :: xs, k =>
      match lastVal key newVal xs k with
      | some v => some v
      | none => if key x = k then newVal x else none

/-- The `access` flag computed at the top of the repository loop in
`_list_user_repo_access`:

```python
if collaborators:
    access = user in collaborators[repo.name]
else:
    access = repo.has_in_collaborators(user)
```

The truthiness test `if collaborators:` is `≠ []` here (the argument is
either `{}`/`None`, both falsy and modelled as `[]`, or the prefetch dict
built by `list_users`).  Python's `collaborators[repo.name]` would raise
`KeyError` for a missing key; as called, the dict contains every roster
repository, so the `getD []` default is never exercised. -/
def accessBool (st : RemoteState) (user : String)
    (collaborators : List (String × List String)) (rf : String) : Bool :=
  if collaborators ≠ [] then
    decide (user ∈ (dlookup collaborators (repoName rf)).getD [])
  else has_in_collaborators st rf user

/-- The body of the repository loop of `_list_user_repo_access`:

```python
if access:
    repos[repo.name] = Access.MEMBER
else:
    repos[repo.name] = Access.NO_ACCESS

if access and user in repo.get_collaborators(affiliation="outside"):
    repos[repo.name] = Access.OUTSIDE
elif not access and user in [invite.invitee for invite in repo.get_pending_invitations()]:
    repos[repo.name] = Access.PENDING
``` -/
def listUserRepoAccessStep (st : RemoteState) (user : String)
    (collaborators : List (String × List String))
    (repos : List (String × Access)) (rf : String) : List (String × Access) :=
  let repos₁ := dictSet repos (repoName rf)
    (if accessBool st user collaborators rf then Access.MEMBER
     else Access.NO_ACCESS)
  if accessBool st user collaborators rf = true ∧
      user ∈ outsideCollaborators st rf then
    dictSet repos₁ (repoName rf) Access.OUTSIDE
  else if accessBool st user collaborators rf = false ∧
      user ∈ st.pending rf then
    dictSet repos₁ (repoName rf) Access.PENDING
  else repos₁

/-- `RepoManager._list_user_repo_access`: the dict `repos` built by looping
over `self._repos` (the roster). -/
def _list_user_repo_access (st : RemoteState) (user : String)
    (collaborators : List (String × List String)) : List (String × Access) :=
  REPOSITORIES.foldl (listUserRepoAccessStep st user collaborators) []

/-- The value the loop body of `_list_user_repo_access` leaves at key
`repo.name` for one repository (base value, then the conditional
overwrite). -/
def repoAccessValue (st : RemoteState) (user : String)
    (collaborators : List (String × List String)) (rf : String) : Access :=
  if accessBool st user collaborators rf = true ∧
      user ∈ outsideCollaborators st rf then Access.OUTSIDE
  else if accessBool st user collaborators rf = false ∧
      user ∈ st.pending rf then Access.PENDING
  else if accessBool st user collaborators rf then Access.MEMBER
  else Access.NO_ACCESS

/-- `RepoManager.list_repo_access`: `get_user` (raising `GithubException` for
an unknown login, caught and turned into `None`), then
`_list_user_repo_access`.  The `collaborators=None` default and the `{}`
passed by `list_users` below threshold are both falsy, modelled as `[]`. -/
def list_repo_access (st : RemoteState) (username : String)
    (collaborators : List (String × List String)) :
    Option (List (String × Access)) :=
  if st.userExists username then
    some (_list_user_repo_access st username collaborators)
  else none

/-- The prefetch dict built by `list_users` when the batch is at or above
`LIST_USER_CACHE_THRESHOLD`:

```python
for repo in self._repos:
    collaborators[repo.name] = repo.get_collaborators()
``` -/
def prefetch_collaborators (st : RemoteState) : List (String × List String) :=
  REPOSITORIES.foldl
    (fun d rf => dictSet d (repoName rf) (st.collaborators rf)) []

/-- `RepoManager.list_users`:

```python
collaborators = {}
if len(usernames) >= LIST_USER_CACHE_THRESHOLD:
    for repo in self._repos:
        collaborators[repo.name] = repo.get_collaborators()
return {user: self.list_repo_access(user, collaborators) for user in usernames}
``` -/
def list_users (st : RemoteState) (usernames : List String) :
    List (String × Option (List (String × Access))) :=
  let collaborators :=
    if LIST_USER_CACHE_THRESHOLD ≤ usernames.length then
      prefetch_collaborators st
    else []
  usernames.foldl
    (fun d u => dictSet d u (list_repo_access st u collaborators)) []

/-- A Python exception escaping an embedded function. -/
inductive PyExn where
  | typeError (msg : String)
deriving DecidableEq, Repr

/-- `RepoManager.add_user`.  The body resolves the user (returning
`(False, "Username not found")` when `get_user` raises `GithubException`),
then executes

```python
access_list = self._list_user_repo_access(user)
```

This call omits the required positional argument `collaborators` of
`_list_user_repo_access(self, user, collaborators)`, so Python raises
`TypeError` before that function's body runs; only `GithubException` is
caught, so the `TypeError` escapes `add_user`.  The member pre-check
(`for repo_name, access in access_list:` — itself unpacking key strings
rather than `.items()` pairs) and the `add_to_collaborators` loop are
therefore unreachable for every existing user, and no remote mutation is
ever attempted. -/
def add_user (st : RemoteState) (username : String) :
    Except PyExn (Bool × String) :=
  if st.userExists username then
    Except.error (PyExn.typeError
      "_list_user_repo_access() missing 1 required positional argument: collaborators")
  else Except.ok (false, "Username not found")

/-- `RepoManager.add_users`:
`{username: self.add_user(username) for username in usernames}` — a dict
comprehension; an exception raised by `add_user` propagates and aborts the
whole comprehension. -/
def add_users (st : RemoteState) (usernames : List String) :
    Except PyExn (List (String × (Bool × String))) :=
  usernames.foldlM
    (fun d u => (add_user st u).map (fun r => dictSet d u r)) []

/-- The per-repository entry of the `all_repos` dict in
`list_outside_collaborators`. -/
structure RepoSets where
  all_collaborators : List String
  outside_collaborators : List String
  pending_invites : List String
deriving DecidableEq, Repr

/-- The prefetch loop of `list_outside_collaborators`:

```python
all_outside_collaborators = []
all_repos = {}
for repo in self._repos:
    all_repos[repo.name] = {...}
    all_outside_collaborators += all_repos[repo.name]["outside_collaborators"]
``` -/
def scanPrefetch (st : RemoteState) :
    List String × List (String × RepoSets) :=
  REPOSITORIES.foldl
    (fun acc rf =>
      (acc.1 ++ outsideCollaborators st rf,
       dictSet acc.2 (repoName rf)
         ⟨st.collaborators rf, outsideCollaborators st rf, st.pending rf⟩))
    ([], [])

/-- The final `access_map` stored for one user by the classification loop of
`list_outside_collaborators` (the map is created with `NO_ACCESS` for every
roster repository, stored in `collaborator_access_map`, and then mutated in
place — the stored value is its final state):

```python
access_map = {repo.name: Access.NO_ACCESS for repo in self._repos}
collaborator_access_map[collaborator.login] = access_map
for repo_name, repo_map in all_repos.items():
    if collaborator in repo_map["outside_collaborators"]:
        access_map[repo_name] = Access.OUTSIDE
    elif collaborator in repo_map["all_collaborators"]:
        access_map[repo_name] = Access.MEMBER
    elif collaborator in repo_map["pending_invites"]:
        access_map[repo_name] = Access.PENDING
``` -/
def scanUserMap (st : RemoteState) (u : String) : List (String × Access) :=
  let access_map := REPOSITORIES.foldl
    (fun d rf => dictSet d (repoName rf) Access.NO_ACCESS) []
  (scanPrefetch st).2.foldl
    (fun d p =>
      if u ∈ p.2.outside_collaborators then dictSet d p.1 Access.OUTSIDE
      else if u ∈ p.2.all_collaborators then dictSet d p.1 Access.MEMBER
      else if u ∈ p.2.pending_invites then dictSet d p.1 Access.PENDING
      else d)
    access_map

/-- `RepoManager.list_outside_collaborators`: prefetch all three sets per
repository, then classify every user appearing in the concatenation of the
outside-collaborator lists. -/
def list_outside_collaborators (st : RemoteState) :
    List (String × List (String × Access)) :=
  (scanPrefetch st).1.foldl (fun m u => dictSet m u (scanUserMap st u)) []

/-- `RepoManager.get_available_requests`
(`self._g.get_rate_limit().core.remaining`) together with the
`requests_cache` layer installed in `__init__`: the rate-limit request is an
HTTP call like any other, so a cached response (if present) is served and no
fresh probe happens; with an empty cache the remote is probed and the
response stored.  Returns (result, cache state after the call).  The class
docstring and the REPL ("You need to clear the cache to get updated
results.") document this caching. -/
def get_available_requests (st : RemoteState) (cached : Option Nat) :
    Nat × Option Nat :=
  match cached with
  | some v => (v, some v)
  | none => (st.rateRemaining, some st.rateRemaining)

/-- `RepoManager.clear_cache` (`requests_cache.clear()`): the response cache
afterwards holds nothing. -/
def clear_cache : Option Nat := none

/-- The `all_outside_collaborators` list built by the prefetch loop of
`list_outside_collaborators` (first component of `scanPrefetch`). -/
def all_outside_collaborators (st : RemoteState) : List String :=
  REPOSITORIES.foldl (fun acc rf => acc ++ outsideCollaborators st rf) []

/-- The `all_repos` dict built by the prefetch loop of
`list_outside_collaborators` (second component of `scanPrefetch`). -/
def all_repos (st : RemoteState) : List (String × RepoSets) :=
  REPOSITORIES.foldl
    (fun d rf => dictSet d (repoName rf)
      ⟨st.collaborators rf, outsideCollaborators st rf, st.pending rf⟩) []

/-- The status the classification loop of `list_outside_collaborators`
leaves for one (user, repository) pair. -/
def scanAccessValue (st : RemoteState) (u : String) (rf : String) : Access :=
  if u ∈ outsideCollaborators st rf then Access.OUTSIDE
  else if u ∈ st.collaborators rf then Access.MEMBER
  else if u ∈ st.pending rf then Access.PENDING
  else Access.NO_ACCESS

/-- The net effect of one classification-loop iteration of
`list_outside_collaborators` on its own key: the value written, if any. -/
def scanStepVal (u : String) (p : String × RepoSets) : Option Access :=
  if u ∈ p.2.outside_collaborators then some Access.OUTSIDE
  else if u ∈ p.2.all_collaborators then some Access.MEMBER
  else if u ∈ p.2.pending_invites then some Access.PENDING
  else none

/-- A small concrete remote state: `alice` is a collaborator of
`nrfconnect/nrfs` belonging to the organization, `bob` is an outside
collaborator of the same repository, `carol` exists and has a pending
invitation to `nrfconnect/sdk-secdom`, and `ghost` does not exist. -/
def exState : RemoteState where
  userExists := fun u => u == "alice" || u == "bob" || u == "carol"
  collaborators := fun rf =>
    if rf = "nrfconnect/nrfs" then ["alice", "bob"] else []
  orgOutside := fun _ u => u == "bob"
  pending := fun rf =>
    if rf = "nrfconnect/sdk-secdom" then ["carol"] else []
  rateRemaining := 5

/-- `exState` after the remote budget has been consumed down to 3. -/
def exStateConsumed : RemoteState := { exState with rateRemaining := 3 }

/-! ### Lemmas and claim theorems -/

@[simp] theorem keys_nil {β : Type} : keys ([] : List (String × β)) = [] := rfl

@[simp] theorem keys_cons {β : Type} (p : String × β) (d : List (String × β)) :
    keys (p :: d) = p.1 :: keys d := rfl

@[simp] theorem dlookup_nil {β : Type} (k : String) :
    dlookup ([] : List (String × β)) k = none := rfl

@[simp] theorem dlookup_cons {β : Type} (k' : String) (v : β)
    (d : List (String × β)) (k : String) :
    dlookup ((k', v) :: d) k = if k' = k then some v else dlookup d k := rfl

theorem keys_append {β : Type} (d₁ d₂ : List (String × β)) :
    keys (d₁ ++ d₂) = keys d₁ ++ keys d₂ := by
  simp [keys]

theorem dlookup_append {β : Type} (d₁ d₂ : List (String × β)) (k : String) :
    dlookup (d₁ ++ d₂) k =
      match dlookup d₁ k with
      | some v => some v
      | none => dlookup d₂ k := by
  induction d₁ with
  | nil => simp
  | cons p d ih =>
      rcases p with ⟨k', v⟩
      by_cases h : k' = k
      · subst h; simp
      · simp [h, ih]

theorem dlookup_eq_none_of_not_mem_keys {β : Type} {d : List (String × β)}
    {k : String} (h : k ∉ keys d) : dlookup d k = none := by
  induction d with
  | nil => rfl
  | cons p d ih =>
      rcases p with ⟨k', v⟩
      simp only [keys_cons, List.mem_cons, not_or] at h
      have h1 : ¬k' = k := fun e => h.1 e.symm
      simp [h1, ih h.2]

theorem exists_dlookup_of_mem_keys {β : Type} {d : List (String × β)}
    {k : String} (h : k ∈ keys d) : ∃ v, dlookup d k = some v := by
  induction d with
  | nil => simp at h
  | cons p d ih =>
      rcases p with ⟨k', v'⟩
      by_cases hk : k' = k
      · subst hk; exact ⟨v', by simp⟩
      · simp only [keys_cons, List.mem_cons] at h
        rcases h with h | h
        · exact absurd h.symm hk
        · rcases ih h with ⟨w, hw⟩
          exact ⟨w, by simp [hk, hw]⟩

theorem mapReplace_of_not_mem_keys {β : Type} {d : List (String × β)}
    {k : String} (v : β) (h : k ∉ keys d) :
    d.map (fun p => if p.1 = k then (k, v) else p) = d := by
  induction d with
  | nil => rfl
  | cons p d ih =>
      simp only [keys_cons, List.mem_cons, not_or] at h
      simp only [List.map_cons, if_neg (fun e : p.1 = k => h.1 e.symm),
        ih h.2]

theorem keys_mapReplace {β : Type} (d : List (String × β)) (k : String)
    (v : β) :
    keys (d.map (fun p => if p.1 = k then (k, v) else p)) = keys d := by
  induction d with
  | nil => rfl
  | cons p d ih =>
      by_cases hp : p.1 = k
      · simp [hp, ih]
      · simp [hp, ih]

theorem dlookup_mapReplace {β : Type} (d : List (String × β)) (k : String)
    (v : β) :
    dlookup (d.map (fun p => if p.1 = k then (k, v) else p)) k =
      match dlookup d k with
      | some _ => some v
      | none => none := by
  induction d with
  | nil => rfl
  | cons p d ih =>
      rcases p with ⟨k₀, v₀⟩
      by_cases hk : k₀ = k
      · subst hk; simp
      · simp [hk, ih]

theorem dlookup_mapReplace_ne {β : Type} (d : List (String × β))
    {k k' : String} (v : β) (h : k' ≠ k) :
    dlookup (d.map (fun p => if p.1 = k then (k, v) else p)) k' =
      dlookup d k' := by
  induction d with
  | nil => rfl
  | cons p d ih =>
      rcases p with ⟨k₀, v₀⟩
      by_cases hk : k₀ = k
      · subst hk
        have h1 : ¬k₀ = k' := fun e => h e.symm
        simp [h1, ih]
      · simp [hk, ih]

theorem dictSet_eq_append {β : Type} {d : List (String × β)} {k : String}
    (v : β) (h : k ∉ keys d) : dictSet d k v = d ++ [(k, v)] := by
  simp [dictSet, h]

theorem dictSet_eq_mapReplace {β : Type} {d : List (String × β)} {k : String}
    (v : β) (h : k ∈ keys d) :
    dictSet d k v = d.map (fun p => if p.1 = k then (k, v) else p) := by
  simp [dictSet, h]

theorem dlookup_dictSet_self {β : Type} (d : List (String × β)) (k : String)
    (v : β) : dlookup (dictSet d k v) k = some v := by
  by_cases h : k ∈ keys d
  · rw [dictSet_eq_mapReplace v h, dlookup_mapReplace]
    rcases exists_dlookup_of_mem_keys h with ⟨w, hw⟩
    rw [hw]
  · rw [dictSet_eq_append v h, dlookup_append,
      dlookup_eq_none_of_not_mem_keys h]
    simp

theorem dlookup_dictSet_ne {β : Type} (d : List (String × β)) {k k' : String}
    (v : β) (h : k' ≠ k) : dlookup (dictSet d k v) k' = dlookup d k' := by
  by_cases hm : k ∈ keys d
  · rw [dictSet_eq_mapReplace v hm, dlookup_mapReplace_ne d v h]
  · rw [dictSet_eq_append v hm, dlookup_append]
    have h1 : ¬k = k' := fun e => h e.symm
    cases hd : dlookup d k' <;> simp [h1]

theorem keys_dictSet_of_mem {β : Type} {d : List (String × β)} {k : String}
    (v : β) (h : k ∈ keys d) : keys (dictSet d k v) = keys d := by
  rw [dictSet_eq_mapReplace v h, keys_mapReplace]

theorem keys_dictSet_of_not_mem {β : Type} {d : List (String × β)}
    {k : String} (v : β) (h : k ∉ keys d) :
    keys (dictSet d k v) = keys d ++ [k] := by
  rw [dictSet_eq_append v h, keys_append]
  rfl

theorem dictSet_dictSet {β : Type} (d : List (String × β)) (k : String)
    (v₁ v₂ : β) : dictSet (dictSet d k v₁) k v₂ = dictSet d k v₂ := by
  by_cases h : k ∈ keys d
  · rw [dictSet_eq_mapReplace v₁ h,
      dictSet_eq_mapReplace v₂ (by rw [keys_mapReplace]; exact h),
      dictSet_eq_mapReplace v₂ h, List.map_map]
    apply List.map_congr_left
    intro p _
    by_cases hp : p.1 = k <;> simp [hp]
  · rw [dictSet_eq_append v₁ h,
      dictSet_eq_mapReplace v₂ (by simp [keys_append]),
      dictSet_eq_append v₂ h, List.map_append,
      mapReplace_of_not_mem_keys v₂ h]
    simp

theorem foldl_dlookup {α β : Type} (key : α → String) (newVal : α → Option β)
    (f : List (String × β) → α → List (String × β))
    (hfs : ∀ d x v, newVal x = some v → f d x = dictSet d (key x) v)
    (hfn : ∀ d x, newVal x = none → f d x = d) :
    ∀ (xs : List α) (d₀ : List (String × β)) (k : String),
      dlookup (xs.foldl f d₀) k =
        match lastVal key newVal xs k with
        | some v => some v
        | none => dlookup d₀ k := by
  intro xs
  induction xs with
  | nil => intro d₀ k; rfl
  | cons x xs ih =>
      intro d₀ k
      rw [List.foldl_cons, ih]
      cases hl : lastVal key newVal xs k with
      | some v => simp [lastVal, hl]
      | none =>
          simp only [lastVal, hl]
          cases hn : newVal x with
          | none => rw [hfn d₀ x hn]; simp
          | some v =>
              rw [hfs d₀ x v hn]
              by_cases hk : key x = k
              · subst hk
                simp [dlookup_dictSet_self]
              · rw [dlookup_dictSet_ne _ _ (fun e => hk e.symm)]
                simp [hk]

theorem lastVal_of_forall_ne {α β : Type} (key : α → String)
    (newVal : α → Option β) :
    ∀ (xs : List α) (k : String), (∀ x ∈ xs, key x ≠ k) →
      lastVal key newVal xs k = none := by
  intro xs
  induction xs with
  | nil => intro k _; rfl
  | cons x xs ih =>
      intro k h
      simp only [lastVal, ih k (fun y hy => h y (List.mem_cons_of_mem x hy))]
      simp [h x (List.mem_cons_self x xs)]

theorem lastVal_of_nodup {α β : Type} (key : α → String)
    (newVal : α → Option β) :
    ∀ (xs : List α), (xs.map key).Nodup → ∀ x₀ ∈ xs,
      lastVal key newVal xs (key x₀) = newVal x₀ := by
  intro xs
  induction xs with
  | nil => intro _ x₀ h; simp at h
  | cons x xs ih =>
      intro hnd x₀ hx₀
      have hnx : key x ∉ xs.map key := (List.nodup_cons.mp (by simpa using hnd)).1
      have hnd' : (xs.map key).Nodup := (List.nodup_cons.mp (by simpa using hnd)).2
      rcases List.mem_cons.mp hx₀ with h | h
      · subst h
        have : lastVal key newVal xs (key x₀) = none := by
          apply lastVal_of_forall_ne
          intro y hy e
          exact hnx (e ▸ List.mem_map_of_mem key hy)
        simp [lastVal, this]
      · have hv := ih hnd' x₀ h
        cases hn : newVal x₀ with
        | some v => simp [lastVal, hv, hn]
        | none =>
            have hne : key x ≠ key x₀ :=
              fun e => hnx (e ▸ List.mem_map_of_mem key h)
            simp [lastVal, hv, hn, hne]

theorem foldl_keys_of_mem {α β : Type} (key : α → String)
    (newVal : α → Option β) (f : List (String × β) → α → List (String × β))
    (hfs : ∀ d x v, newVal x = some v → f d x = dictSet d (key x) v)
    (hfn : ∀ d x, newVal x = none → f d x = d) :
    ∀ (xs : List α) (d₀ : List (String × β)),
      (∀ x ∈ xs, key x ∈ keys d₀) → keys (xs.foldl f d₀) = keys d₀ := by
  intro xs
  induction xs with
  | nil => intro d₀ _; rfl
  | cons x xs ih =>
      intro d₀ h
      have hk : keys (f d₀ x) = keys d₀ := by
        cases hn : newVal x with
        | none => rw [hfn d₀ x hn]
        | some v =>
            rw [hfs d₀ x v hn]
            exact keys_dictSet_of_mem v (h x (List.mem_cons_self x xs))
      rw [List.foldl_cons,
        ih (f d₀ x) (fun y hy => by
          rw [hk]; exact h y (List.mem_cons_of_mem x hy)), hk]

theorem foldl_dictSet_eq {α β : Type} (key : α → String) (val : α → β)
    (f : List (String × β) → α → List (String × β))
    (hf : ∀ d x, f d x = dictSet d (key x) (val x)) :
    ∀ (xs : List α) (d₀ : List (String × β)), (xs.map key).Nodup →
      (∀ x ∈ xs, key x ∉ keys d₀) →
      xs.foldl f d₀ = d₀ ++ xs.map (fun x => (key x, val x)) := by
  intro xs
  induction xs with
  | nil => intro d₀ _ _; simp
  | cons x xs ih =>
      intro d₀ hnd hdisj
      have hnx : key x ∉ xs.map key := (List.nodup_cons.mp (by simpa using hnd)).1
      have hnd' : (xs.map key).Nodup := (List.nodup_cons.mp (by simpa using hnd)).2
      have hstep : f d₀ x = d₀ ++ [(key x, val x)] := by
        rw [hf, dictSet_eq_append _ (hdisj x (List.mem_cons_self x xs))]
      rw [List.foldl_cons, hstep,
        ih (d₀ ++ [(key x, val x)]) hnd' (fun y hy => by
          rw [keys_append]
          intro hmem
          rcases List.mem_append.mp hmem with hm | hm
          · exact hdisj y (List.mem_cons_of_mem x hy) hm
          · have : key y = key x := by simpa [keys] using hm
            exact hnx (this ▸ List.mem_map_of_mem key hy))]
      simp

theorem dlookup_map_of_nodup {α β : Type} (key : α → String) (val : α → β) :
    ∀ (xs : List α), (xs.map key).Nodup → ∀ x₀ ∈ xs,
      dlookup (xs.map (fun x => (key x, val x))) (key x₀) = some (val x₀) := by
  intro xs
  induction xs with
  | nil => intro _ x₀ h; simp at h
  | cons x xs ih =>
      intro hnd x₀ hx₀
      have hnx : key x ∉ xs.map key := (List.nodup_cons.mp (by simpa using hnd)).1
      have hnd' : (xs.map key).Nodup := (List.nodup_cons.mp (by simpa using hnd)).2
      rcases List.mem_cons.mp hx₀ with h | h
      · subst h; simp
      · have hne : key x ≠ key x₀ :=
          fun e => hnx (e ▸ List.mem_map_of_mem key h)
        simp [hne, ih hnd' x₀ h]

theorem keys_map_pair {α β : Type} (key : α → String) (val : α → β)
    (xs : List α) : keys (xs.map (fun x => (key x, val x))) = xs.map key := by
  unfold keys
  rw [List.map_map]
  rfl

set_option maxHeartbeats 1000000 in
theorem REPOSITORIES_names_nodup : (REPOSITORIES.map repoName).Nodup := by
  decide

theorem listUserRepoAccessStep_eq (st : RemoteState) (u : String)
    (c : List (String × List String)) (d : List (String × Access))
    (rf : String) :
    listUserRepoAccessStep st u c d rf =
      dictSet d (repoName rf) (repoAccessValue st u c rf) := by
  unfold listUserRepoAccessStep repoAccessValue
  by_cases h1 : accessBool st u c rf = true ∧ u ∈ outsideCollaborators st rf
  · simp only [if_pos h1, dictSet_dictSet]
  · by_cases h2 : accessBool st u c rf = false ∧ u ∈ st.pending rf
    · simp only [if_neg h1, if_pos h2, dictSet_dictSet]
    · simp only [if_neg h1, if_neg h2]

theorem list_user_repo_access_eq (st : RemoteState) (u : String)
    (c : List (String × List String)) :
    _list_user_repo_access st u c =
      REPOSITORIES.map (fun rf => (repoName rf, repoAccessValue st u c rf)) := by
  have h := foldl_dictSet_eq repoName (repoAccessValue st u c)
    (listUserRepoAccessStep st u c)
    (fun d rf => listUserRepoAccessStep_eq st u c d rf)
    REPOSITORIES [] REPOSITORIES_names_nodup (by simp)
  simpa [_list_user_repo_access] using h

theorem dlookup_list_user_repo_access (st : RemoteState) (u : String)
    (c : List (String × List String)) {rf : String} (h : rf ∈ REPOSITORIES) :
    dlookup (_list_user_repo_access st u c) (repoName rf) =
      some (repoAccessValue st u c rf) := by
  rw [list_user_repo_access_eq]
  exact dlookup_map_of_nodup repoName _ REPOSITORIES REPOSITORIES_names_nodup
    rf h

theorem keys_list_user_repo_access (st : RemoteState) (u : String)
    (c : List (String × List String)) :
    keys (_list_user_repo_access st u c) = REPOSITORIES.map repoName := by
  rw [list_user_repo_access_eq, keys_map_pair]

theorem prefetch_collaborators_eq (st : RemoteState) :
    prefetch_collaborators st =
      REPOSITORIES.map (fun rf => (repoName rf, st.collaborators rf)) := by
  have h := foldl_dictSet_eq repoName (fun rf => st.collaborators rf)
    (fun d rf => dictSet d (repoName rf) (st.collaborators rf))
    (fun d rf => rfl)
    REPOSITORIES [] REPOSITORIES_names_nodup (by simp)
  simpa [prefetch_collaborators] using h

theorem prefetch_collaborators_ne_nil (st : RemoteState) :
    prefetch_collaborators st ≠ [] := by
  rw [prefetch_collaborators_eq]
  intro h
  have : REPOSITORIES = [] := List.map_eq_nil_iff.mp h
  simp [REPOSITORIES] at this

theorem dlookup_prefetch_collaborators (st : RemoteState) {rf : String}
    (h : rf ∈ REPOSITORIES) :
    dlookup (prefetch_collaborators st) (repoName rf) =
      some (st.collaborators rf) := by
  rw [prefetch_collaborators_eq]
  exact dlookup_map_of_nodup repoName _ REPOSITORIES REPOSITORIES_names_nodup
    rf h

theorem accessBool_nil (st : RemoteState) (u rf : String) :
    accessBool st u [] rf = decide (u ∈ st.collaborators rf) := by
  simp [accessBool, has_in_collaborators]

theorem accessBool_prefetch (st : RemoteState) (u : String) {rf : String}
    (h : rf ∈ REPOSITORIES) :
    accessBool st u (prefetch_collaborators st) rf =
      decide (u ∈ st.collaborators rf) := by
  unfold accessBool
  rw [if_pos (prefetch_collaborators_ne_nil st),
    dlookup_prefetch_collaborators st h]
  rfl

theorem repoAccessValue_eq_of_accessBool (st : RemoteState) (u rf : String)
    (c : List (String × List String))
    (ha : accessBool st u c rf = decide (u ∈ st.collaborators rf)) :
    repoAccessValue st u c rf =
      (if u ∈ st.collaborators rf ∧ u ∈ outsideCollaborators st rf then
        Access.OUTSIDE
      else if u ∈ st.collaborators rf then Access.MEMBER
      else if u ∈ st.pending rf then Access.PENDING
      else Access.NO_ACCESS) := by
  unfold repoAccessValue
  rw [ha]
  by_cases h1 : u ∈ st.collaborators rf <;>
    by_cases h2 : u ∈ outsideCollaborators st rf <;>
    by_cases h3 : u ∈ st.pending rf <;>
    simp [h1, h2, h3]

theorem repoAccessValue_eq_precedence (st : RemoteState) (u rf : String)
    (c : List (String × List String))
    (hc : c = [] ∨ c = prefetch_collaborators st) (h : rf ∈ REPOSITORIES) :
    repoAccessValue st u c rf =
      (if u ∈ st.collaborators rf ∧ u ∈ outsideCollaborators st rf then
        Access.OUTSIDE
      else if u ∈ st.collaborators rf then Access.MEMBER
      else if u ∈ st.pending rf then Access.PENDING
      else Access.NO_ACCESS) := by
  apply repoAccessValue_eq_of_accessBool
  rcases hc with hc | hc
  · rw [hc]; exact accessBool_nil st u rf
  · rw [hc]; exact accessBool_prefetch st u h

theorem scanPrefetch_aux (st : RemoteState) :
    ∀ (rs : List String) (a : List String) (d : List (String × RepoSets)),
      rs.foldl
        (fun acc rf =>
          (acc.1 ++ outsideCollaborators st rf,
           dictSet acc.2 (repoName rf)
             ⟨st.collaborators rf, outsideCollaborators st rf, st.pending rf⟩))
        (a, d) =
      (rs.foldl (fun acc rf => acc ++ outsideCollaborators st rf) a,
       rs.foldl
         (fun d rf => dictSet d (repoName rf)
           ⟨st.collaborators rf, outsideCollaborators st rf, st.pending rf⟩)
         d) := by
  intro rs
  induction rs with
  | nil => intro a d; rfl
  | cons rf rs ih =>
      intro a d
      rw [List.foldl_cons, List.foldl_cons, List.foldl_cons]
      exact ih _ _

theorem scanPrefetch_eq (st : RemoteState) :
    scanPrefetch st = (all_outside_collaborators st, all_repos st) := by
  unfold scanPrefetch all_outside_collaborators all_repos
  exact scanPrefetch_aux st REPOSITORIES [] []

theorem all_repos_eq (st : RemoteState) :
    all_repos st =
      REPOSITORIES.map (fun rf => (repoName rf,
        (⟨st.collaborators rf, outsideCollaborators st rf, st.pending rf⟩ :
          RepoSets))) := by
  have h := foldl_dictSet_eq repoName
    (fun rf => (⟨st.collaborators rf, outsideCollaborators st rf,
      st.pending rf⟩ : RepoSets))
    (fun d rf => dictSet d (repoName rf)
      ⟨st.collaborators rf, outsideCollaborators st rf, st.pending rf⟩)
    (fun d rf => rfl)
    REPOSITORIES [] REPOSITORIES_names_nodup (by simp)
  simpa [all_repos] using h

theorem scanPrefetch_fst (st : RemoteState) :
    (scanPrefetch st).1 = all_outside_collaborators st := by
  rw [scanPrefetch_eq]

theorem scanPrefetch_snd (st : RemoteState) :
    (scanPrefetch st).2 = all_repos st := by
  rw [scanPrefetch_eq]

theorem scanStep_eq_some (u : String) (d : List (String × Access))
    (p : String × RepoSets) (v : Access) (hv : scanStepVal u p = some v) :
    (if u ∈ p.2.outside_collaborators then dictSet d p.1 Access.OUTSIDE
     else if u ∈ p.2.all_collaborators then dictSet d p.1 Access.MEMBER
     else if u ∈ p.2.pending_invites then dictSet d p.1 Access.PENDING
     else d) = dictSet d p.1 v := by
  unfold scanStepVal at hv
  by_cases h1 : u ∈ p.2.outside_collaborators
  · rw [if_pos h1] at hv
    cases hv
    rw [if_pos h1]
  · rw [if_neg h1] at hv
    by_cases h2 : u ∈ p.2.all_collaborators
    · rw [if_pos h2] at hv
      cases hv
      rw [if_neg h1, if_pos h2]
    · rw [if_neg h2] at hv
      by_cases h3 : u ∈ p.2.pending_invites
      · rw [if_pos h3] at hv
        cases hv
        rw [if_neg h1, if_neg h2, if_pos h3]
      · rw [if_neg h3] at hv
        cases hv

theorem scanStep_eq_none (u : String) (d : List (String × Access))
    (p : String × RepoSets) (hv : scanStepVal u p = none) :
    (if u ∈ p.2.outside_collaborators then dictSet d p.1 Access.OUTSIDE
     else if u ∈ p.2.all_collaborators then dictSet d p.1 Access.MEMBER
     else if u ∈ p.2.pending_invites then dictSet d p.1 Access.PENDING
     else d) = d := by
  unfold scanStepVal at hv
  by_cases h1 : u ∈ p.2.outside_collaborators
  · rw [if_pos h1] at hv; cases hv
  · rw [if_neg h1] at hv
    by_cases h2 : u ∈ p.2.all_collaborators
    · rw [if_pos h2] at hv; cases hv
    · rw [if_neg h2] at hv
      by_cases h3 : u ∈ p.2.pending_invites
      · rw [if_pos h3] at hv; cases hv
      · rw [if_neg h1, if_neg h2, if_neg h3]

theorem scanInit_eq :
    REPOSITORIES.foldl
        (fun d rf => dictSet d (repoName rf) Access.NO_ACCESS) [] =
      REPOSITORIES.map (fun rf => (repoName rf, Access.NO_ACCESS)) := by
  simpa using foldl_dictSet_eq repoName (fun _ => Access.NO_ACCESS)
    (fun d rf => dictSet d (repoName rf) Access.NO_ACCESS)
    (fun d rf => rfl) REPOSITORIES [] REPOSITORIES_names_nodup (by simp)

theorem dlookup_scanUserMap (st : RemoteState) (u : String) {rf : String}
    (h : rf ∈ REPOSITORIES) :
    dlookup (scanUserMap st u) (repoName rf) =
      some (scanAccessValue st u rf) := by
  show dlookup ((scanPrefetch st).2.foldl
      (fun d p =>
        if u ∈ p.2.outside_collaborators then dictSet d p.1 Access.OUTSIDE
        else if u ∈ p.2.all_collaborators then dictSet d p.1 Access.MEMBER
        else if u ∈ p.2.pending_invites then dictSet d p.1 Access.PENDING
        else d)
      (REPOSITORIES.foldl
        (fun d rf => dictSet d (repoName rf) Access.NO_ACCESS) []))
      (repoName rf) = some (scanAccessValue st u rf)
  rw [scanPrefetch_snd, all_repos_eq, scanInit_eq,
    foldl_dlookup Prod.fst (scanStepVal u) _
      (fun d p v hv => scanStep_eq_some u d p v hv)
      (fun d p hv => scanStep_eq_none u d p hv)]
  have hnd : ((REPOSITORIES.map (fun rf => (repoName rf,
      (⟨st.collaborators rf, outsideCollaborators st rf, st.pending rf⟩ :
        RepoSets)))).map Prod.fst).Nodup := by
    rw [show (REPOSITORIES.map (fun rf => (repoName rf,
      (⟨st.collaborators rf, outsideCollaborators st rf, st.pending rf⟩ :
        RepoSets)))).map Prod.fst = REPOSITORIES.map repoName from
      keys_map_pair repoName _ REPOSITORIES]
    exact REPOSITORIES_names_nodup
  have hx : (repoName rf,
      (⟨st.collaborators rf, outsideCollaborators st rf, st.pending rf⟩ :
        RepoSets)) ∈ REPOSITORIES.map (fun rf => (repoName rf,
      (⟨st.collaborators rf, outsideCollaborators st rf, st.pending rf⟩ :
        RepoSets))) := List.mem_map_of_mem _ h
  have hlast : lastVal Prod.fst (scanStepVal u)
      (REPOSITORIES.map (fun rf => (repoName rf,
        (⟨st.collaborators rf, outsideCollaborators st rf, st.pending rf⟩ :
          RepoSets)))) (repoName rf) =
      scanStepVal u (repoName rf,
        (⟨st.collaborators rf, outsideCollaborators st rf, st.pending rf⟩ :
          RepoSets)) :=
    lastVal_of_nodup Prod.fst (scanStepVal u) _ hnd _ hx
  rw [hlast]
  have hbase : dlookup
      (REPOSITORIES.map (fun rf => (repoName rf, Access.NO_ACCESS)))
      (repoName rf) = some Access.NO_ACCESS :=
    dlookup_map_of_nodup repoName _ REPOSITORIES REPOSITORIES_names_nodup rf h
  by_cases h1 : u ∈ outsideCollaborators st rf <;>
    by_cases h2 : u ∈ st.collaborators rf <;>
    by_cases h3 : u ∈ st.pending rf <;>
    simp [scanStepVal, scanAccessValue, h1, h2, h3, hbase]

theorem keys_scanUserMap (st : RemoteState) (u : String) :
    keys (scanUserMap st u) = REPOSITORIES.map repoName := by
  show keys ((scanPrefetch st).2.foldl
      (fun d p =>
        if u ∈ p.2.outside_collaborators then dictSet d p.1 Access.OUTSIDE
        else if u ∈ p.2.all_collaborators then dictSet d p.1 Access.MEMBER
        else if u ∈ p.2.pending_invites then dictSet d p.1 Access.PENDING
        else d)
      (REPOSITORIES.foldl
        (fun d rf => dictSet d (repoName rf) Access.NO_ACCESS) []))
      = REPOSITORIES.map repoName
  rw [scanPrefetch_snd, all_repos_eq, scanInit_eq,
    foldl_keys_of_mem Prod.fst (scanStepVal u) _
      (fun d p v hv => scanStep_eq_some u d p v hv)
      (fun d p hv => scanStep_eq_none u d p hv)]
  · exact keys_map_pair repoName _ REPOSITORIES
  · intro p hp
    rcases List.mem_map.mp hp with ⟨rf, hrf, rfl⟩
    rw [keys_map_pair repoName _ REPOSITORIES]
    exact List.mem_map_of_mem repoName hrf

theorem foldl_dictSet_fun_untouched {β : Type} (g : String → β) :
    ∀ (xs : List String) (d₀ : List (String × β)) (k : String),
      (∀ x ∈ xs, x ≠ k) →
      dlookup (xs.foldl (fun m x => dictSet m x (g x)) d₀) k =
        dlookup d₀ k := by
  intro xs
  induction xs with
  | nil => intro d₀ k _; rfl
  | cons x xs ih =>
      intro d₀ k h
      rw [List.foldl_cons,
        ih (dictSet d₀ x (g x)) k (fun y hy => h y (List.mem_cons_of_mem x hy)),
        dlookup_dictSet_ne _ _ (fun e => h x (List.mem_cons_self x xs) e.symm)]

theorem foldl_dictSet_fun_dlookup {β : Type} (g : String → β) :
    ∀ (xs : List String) (d₀ : List (String × β)) (u : String), u ∈ xs →
      dlookup (xs.foldl (fun m x => dictSet m x (g x)) d₀) u = some (g u) := by
  intro xs
  induction xs with
  | nil => intro d₀ u hu; simp at hu
  | cons x xs ih =>
      intro d₀ u hu
      rw [List.foldl_cons]
      by_cases hx : u ∈ xs
      · exact ih (dictSet d₀ x (g x)) u hx
      · have hux : u = x := by
          rcases List.mem_cons.mp hu with h | h
          · exact h
          · exact absurd h hx
        subst hux
        rw [foldl_dictSet_fun_untouched g xs (dictSet d₀ u (g u)) u
          (fun y hy e => hx (e ▸ hy)), dlookup_dictSet_self]

theorem foldl_dictSet_fun_some {β : Type} (g : String → β) :
    ∀ (xs : List String) (d₀ : List (String × β)) (u : String) (r : β),
      dlookup (xs.foldl (fun m x => dictSet m x (g x)) d₀) u = some r →
      r = g u ∨ dlookup d₀ u = some r := by
  intro xs
  induction xs with
  | nil => intro d₀ u r h; exact Or.inr h
  | cons x xs ih =>
      intro d₀ u r h
      rw [List.foldl_cons] at h
      rcases ih (dictSet d₀ x (g x)) u r h with h1 | h1
      · exact Or.inl h1
      · by_cases hx : x = u
        · subst hx
          rw [dlookup_dictSet_self] at h1
          cases h1
          exact Or.inl rfl
        · rw [dlookup_dictSet_ne _ _ (fun e => hx e.symm)] at h1
          exact Or.inr h1

theorem dlookup_list_outside_collaborators_of_mem (st : RemoteState)
    {u : String} (hu : u ∈ all_outside_collaborators st) :
    dlookup (list_outside_collaborators st) u = some (scanUserMap st u) := by
  unfold list_outside_collaborators
  exact foldl_dictSet_fun_dlookup (fun x => scanUserMap st x)
    (scanPrefetch st).1 [] u (by rw [scanPrefetch_fst]; exact hu)

theorem dlookup_list_outside_collaborators_some (st : RemoteState)
    {login : String} {m : List (String × Access)}
    (hm : dlookup (list_outside_collaborators st) login = some m) :
    m = scanUserMap st login := by
  unfold list_outside_collaborators at hm
  rcases foldl_dictSet_fun_some (fun x => scanUserMap st x)
    (scanPrefetch st).1 [] login m hm with h | h
  · exact h
  · simp at h

theorem list_user_repo_access_prefetch_eq (st : RemoteState) (u : String) :
    _list_user_repo_access st u (prefetch_collaborators st) =
      _list_user_repo_access st u [] := by
  rw [list_user_repo_access_eq, list_user_repo_access_eq]
  apply List.map_congr_left
  intro rf hrf
  rw [repoAccessValue_eq_precedence st u rf _ (Or.inr rfl) hrf,
    repoAccessValue_eq_precedence st u rf _ (Or.inl rfl) hrf]

theorem list_repo_access_prefetch_eq (st : RemoteState) (u : String) :
    list_repo_access st u (prefetch_collaborators st) =
      list_repo_access st u [] := by
  unfold list_repo_access
  by_cases h : st.userExists u = true
  · simp only [h, if_pos rfl, list_user_repo_access_prefetch_eq]
  · simp only [if_neg h]

theorem dlookup_list_users (st : RemoteState) (us : List String) {u : String}
    (hu : u ∈ us) :
    dlookup (list_users st us) u =
      some (list_repo_access st u
        (if LIST_USER_CACHE_THRESHOLD ≤ us.length then
          prefetch_collaborators st
        else [])) := by
  simp only [list_users]
  exact foldl_dictSet_fun_dlookup
    (fun x => list_repo_access st x
      (if LIST_USER_CACHE_THRESHOLD ≤ us.length then
        prefetch_collaborators st
      else []))
    us [] u hu

theorem dlookup_list_users_some (st : RemoteState) (us : List String)
    {u : String} {r : Option (List (String × Access))}
    (hm : dlookup (list_users st us) u = some r) :
    r = list_repo_access st u
      (if LIST_USER_CACHE_THRESHOLD ≤ us.length then
        prefetch_collaborators st
      else []) := by
  simp only [list_users] at hm
  rcases foldl_dictSet_fun_some
    (fun x => list_repo_access st x
      (if LIST_USER_CACHE_THRESHOLD ≤ us.length then
        prefetch_collaborators st
      else []))
    us [] u r hm with h | h
  · exact h
  · simp at h

theorem scanAccessValue_eq_precedence (st : RemoteState) (u rf : String) :
    scanAccessValue st u rf =
      (if u ∈ st.collaborators rf ∧ u ∈ outsideCollaborators st rf then
        Access.OUTSIDE
      else if u ∈ st.collaborators rf then Access.MEMBER
      else if u ∈ st.pending rf then Access.PENDING
      else Access.NO_ACCESS) := by
  unfold scanAccessValue
  by_cases h2 : u ∈ outsideCollaborators st rf
  · have h1 : u ∈ st.collaborators rf :=
      (List.mem_filter.mp (by simpa [outsideCollaborators] using h2)).1
    simp [h1, h2]
  · by_cases h1 : u ∈ st.collaborators rf <;>
      by_cases h3 : u ∈ st.pending rf <;>
      simp [h1, h2, h3]

/-- C1: for every user and every roster repository, the resolver
(`list_repo_access` / `_list_user_repo_access`, on either membership path it
is actually called with) assigns the status by the fixed precedence rule:
collaborator ∧ outside-collaborator → OUTSIDE; else collaborator → MEMBER;
else pending-invitee → PENDING; else NO_ACCESS. -/
theorem C1_resolve_precedence (st : RemoteState) (u rf : String)
    (c : List (String × List String))
    (hc : c = [] ∨ c = prefetch_collaborators st) (hrf : rf ∈ REPOSITORIES) :
    dlookup (_list_user_repo_access st u c) (repoName rf) =
      some (if u ∈ st.collaborators rf ∧ u ∈ outsideCollaborators st rf then
        Access.OUTSIDE
      else if u ∈ st.collaborators rf then Access.MEMBER
      else if u ∈ st.pending rf then Access.PENDING
      else Access.NO_ACCESS) := by
  rw [dlookup_list_user_repo_access st u c hrf,
    repoAccessValue_eq_precedence st u rf c hc hrf]

/-- Witness for C1 at a concrete input. -/
theorem C1_witness :
    (([] : List (String × List String)) = [] ∨
      ([] : List (String × List String)) = prefetch_collaborators exState) ∧
    "nrfconnect/nrfs" ∈ REPOSITORIES ∧
    dlookup (_list_user_repo_access exState "alice" [])
        (repoName "nrfconnect/nrfs") =
      some (if "alice" ∈ exState.collaborators "nrfconnect/nrfs" ∧
          "alice" ∈ outsideCollaborators exState "nrfconnect/nrfs" then
        Access.OUTSIDE
      else if "alice" ∈ exState.collaborators "nrfconnect/nrfs" then
        Access.MEMBER
      else if "alice" ∈ exState.pending "nrfconnect/nrfs" then Access.PENDING
      else Access.NO_ACCESS) :=
  ⟨Or.inl rfl, by decide,
    C1_resolve_precedence exState "alice" "nrfconnect/nrfs" []
      (Or.inl rfl) (by decide)⟩

/-- C2: for a fixed remote state, the per-user path (batch below the
threshold 3, `has_in_collaborators` probing) and the bulk-prefetch path
(batch at or above 3, membership in the prefetched collaborator lists) of
`list_users` give identical per-(user, repository) results. -/
theorem C2_batch_paths_agree (st : RemoteState) (us₁ us₂ : List String)
    (u : String)
    (h₁ : us₁.length < LIST_USER_CACHE_THRESHOLD)
    (h₂ : LIST_USER_CACHE_THRESHOLD ≤ us₂.length)
    (hu₁ : u ∈ us₁) (hu₂ : u ∈ us₂) :
    dlookup (list_users st us₁) u = dlookup (list_users st us₂) u := by
  rw [dlookup_list_users st us₁ hu₁, dlookup_list_users st us₂ hu₂,
    if_neg (by omega), if_pos h₂, list_repo_access_prefetch_eq]

/-- Witness for C2 at a concrete input. -/
theorem C2_witness :
    (["bob"] : List String).length < LIST_USER_CACHE_THRESHOLD ∧
    LIST_USER_CACHE_THRESHOLD ≤ (["alice", "bob", "carol"] : List String).length ∧
    "bob" ∈ (["bob"] : List String) ∧
    "bob" ∈ (["alice", "bob", "carol"] : List String) ∧
    dlookup (list_users exState ["bob"]) "bob" =
      dlookup (list_users exState ["alice", "bob", "carol"]) "bob" :=
  ⟨by decide, by decide, by decide, by decide,
    C2_batch_paths_agree exState ["bob"] ["alice", "bob", "carol"] "bob"
      (by decide) (by decide) (by decide) (by decide)⟩

/-- C3 (code bug): `alice` holds `MEMBER` in a roster repository, yet
`add_user` does not return `(False, message)` — it raises `TypeError`,
because `self._list_user_repo_access(user)` omits the required
`collaborators` argument (and only `GithubException` is caught).  No remote
mutation is attempted, but no `(added, message)` pair is ever produced for
any existing user. -/
theorem C3_add_user_member_raises :
    dlookup (_list_user_repo_access exState "alice" [])
        (repoName "nrfconnect/nrfs") = some Access.MEMBER ∧
    add_user exState "alice" = Except.error (PyExn.typeError
      "_list_user_repo_access() missing 1 required positional argument: collaborators") :=
  ⟨by decide, rfl⟩

/-- C4 (code bug): `carol` exists and holds `MEMBER` nowhere, yet
`add_user` raises the same `TypeError` before any `add_to_collaborators`
call, so it never returns `added = true` for any repository outcome. -/
theorem C4_add_user_nonmember_raises :
    exState.userExists "carol" = true ∧
    (∀ rf ∈ REPOSITORIES,
      dlookup (_list_user_repo_access exState "carol" []) (repoName rf) ≠
        some Access.MEMBER) ∧
    add_user exState "carol" = Except.error (PyExn.typeError
      "_list_user_repo_access() missing 1 required positional argument: collaborators") :=
  ⟨rfl, by decide, rfl⟩

/-- C5 (code bug): in `add_users ["carol", "ghost"]` the `TypeError` raised
while processing `carol` propagates out of the dict comprehension, so no
outcome map is produced at all and `ghost` is never processed — although
`ghost` alone would get its `(False, "Username not found")` outcome. -/
theorem C5_add_users_aborts :
    add_users exState ["carol", "ghost"] = Except.error (PyExn.typeError
      "_list_user_repo_access() missing 1 required positional argument: collaborators") ∧
    add_users exState ["ghost"] =
      Except.ok [("ghost", (false, "Username not found"))] :=
  ⟨rfl, rfl⟩

/-- C6: a username that does not resolve yields the distinguished `None`
outcome from `list_repo_access`, `list_users` maps it to that marker, and it
is never represented as a row of statuses. -/
theorem C6_not_found_marker (st : RemoteState)
    (c : List (String × List String)) (us : List String) (u : String)
    (h : st.userExists u = false) (hu : u ∈ us) :
    list_repo_access st u c = none ∧
    dlookup (list_users st us) u = some none ∧
    (∀ m : List (String × Access),
      dlookup (list_users st us) u ≠ some (some m)) := by
  have h1 : ∀ c' : List (String × List String),
      list_repo_access st u c' = none := by
    intro c'
    unfold list_repo_access
    rw [h]
    rfl
  have h2 : dlookup (list_users st us) u = some none := by
    rw [dlookup_list_users st us hu, h1]
  exact ⟨h1 c, h2, fun m hm => by rw [h2] at hm; cases hm⟩

/-- Witness for C6 at a concrete input. -/
theorem C6_witness :
    exState.userExists "ghost" = false ∧
    "ghost" ∈ (["ghost"] : List String) ∧
    (list_repo_access exState "ghost" [] = none ∧
      dlookup (list_users exState ["ghost"]) "ghost" = some none ∧
      (∀ m : List (String × Access),
        dlookup (list_users exState ["ghost"]) "ghost" ≠ some (some m))) :=
  ⟨rfl, by decide,
    C6_not_found_marker exState [] ["ghost"] "ghost" rfl (by decide)⟩

/-- C7: for every user in the union of outside-collaborator lists and every
roster repository, the status stored by `list_outside_collaborators` equals
the status the resolver computes from the same prefetched sets. -/
theorem C7_scan_agrees_with_resolver (st : RemoteState) (u rf : String)
    (hu : u ∈ all_outside_collaborators st) (hrf : rf ∈ REPOSITORIES) :
    (dlookup (list_outside_collaborators st) u).bind
        (fun m => dlookup m (repoName rf)) =
      dlookup (_list_user_repo_access st u (prefetch_collaborators st))
        (repoName rf) := by
  have h1 := dlookup_list_outside_collaborators_of_mem st hu
  have h2 := dlookup_scanUserMap st u hrf
  have h3 := dlookup_list_user_repo_access st u (prefetch_collaborators st) hrf
  calc (dlookup (list_outside_collaborators st) u).bind
          (fun m => dlookup m (repoName rf))
      = (some (scanUserMap st u)).bind
          (fun m => dlookup m (repoName rf)) := by
        exact congrArg (fun o : Option (List (String × Access)) =>
          o.bind (fun m => dlookup m (repoName rf))) h1
    _ = dlookup (scanUserMap st u) (repoName rf) := Option.some_bind _ _
    _ = some (scanAccessValue st u rf) := h2
    _ = some (repoAccessValue st u (prefetch_collaborators st) rf) := by
        rw [scanAccessValue_eq_precedence st u rf,
          repoAccessValue_eq_precedence st u rf _ (Or.inr rfl) hrf]
    _ = dlookup (_list_user_repo_access st u (prefetch_collaborators st))
          (repoName rf) := h3.symm

/-- Witness for C7 at a concrete input. -/
theorem C7_witness :
    "bob" ∈ all_outside_collaborators exState ∧
    "nrfconnect/nrfs" ∈ REPOSITORIES ∧
    (dlookup (list_outside_collaborators exState) "bob").bind
        (fun m => dlookup m (repoName "nrfconnect/nrfs")) =
      dlookup (_list_user_repo_access exState "bob"
        (prefetch_collaborators exState)) (repoName "nrfconnect/nrfs") :=
  ⟨by decide, by decide,
    C7_scan_agrees_with_resolver exState "bob" "nrfconnect/nrfs"
      (by decide) (by decide)⟩

/-- C8: every per-user map produced by the resolver or the scanner assigns
to every roster repository exactly one of the four `Access` values — the map
holds exactly one entry for the repository's key, and that entry's value is
one of the four enumeration members. -/
theorem C8_status_total_single_valued (st : RemoteState) :
    (∀ (u : String) (c : List (String × List String)) (rf : String),
      rf ∈ REPOSITORIES →
      ∃ a, dlookup (_list_user_repo_access st u c) (repoName rf) = some a ∧
        (a = Access.MEMBER ∨ a = Access.OUTSIDE ∨ a = Access.PENDING ∨
          a = Access.NO_ACCESS) ∧
        List.count (repoName rf) (keys (_list_user_repo_access st u c)) = 1) ∧
    (∀ (login : String) (m : List (String × Access)),
      dlookup (list_outside_collaborators st) login = some m →
      ∀ rf : String, rf ∈ REPOSITORIES →
      ∃ a, dlookup m (repoName rf) = some a ∧
        (a = Access.MEMBER ∨ a = Access.OUTSIDE ∨ a = Access.PENDING ∨
          a = Access.NO_ACCESS) ∧
        List.count (repoName rf) (keys m) = 1) := by
  have hcount : ∀ rf : String, rf ∈ REPOSITORIES →
      List.count (repoName rf) (REPOSITORIES.map repoName) = 1 :=
    fun rf hrf => List.count_eq_one_of_mem REPOSITORIES_names_nodup
      (List.mem_map_of_mem repoName hrf)
  constructor
  · intro u c rf hrf
    refine ⟨repoAccessValue st u c rf,
      dlookup_list_user_repo_access st u c hrf, ?_, ?_⟩
    · cases repoAccessValue st u c rf <;> simp
    · rw [keys_list_user_repo_access]
      exact hcount rf hrf
  · intro login m hm rf hrf
    have hmem := dlookup_list_outside_collaborators_some st hm
    refine ⟨scanAccessValue st login rf, ?_, ?_, ?_⟩
    · rw [hmem]
      exact dlookup_scanUserMap st login hrf
    · cases scanAccessValue st login rf <;> simp
    · rw [hmem, keys_scanUserMap]
      exact hcount rf hrf

/-- Witness for C8 at a concrete input. -/
theorem C8_witness :
    ("nrfconnect/nrfs" ∈ REPOSITORIES) ∧
    (∃ a, dlookup (_list_user_repo_access exState "alice" [])
        (repoName "nrfconnect/nrfs") = some a ∧
      (a = Access.MEMBER ∨ a = Access.OUTSIDE ∨ a = Access.PENDING ∨
        a = Access.NO_ACCESS) ∧
      List.count (repoName "nrfconnect/nrfs")
        (keys (_list_user_repo_access exState "alice" [])) = 1) :=
  ⟨by decide,
    (C8_status_total_single_valued exState).1 "alice" [] "nrfconnect/nrfs"
      (by decide)⟩

/-- C9 counterexample: `get_available_requests` goes through the installed
`requests_cache` like every other request.  After one call populated the
cache with remaining = 5, a second call — issued after the remote budget
dropped to 3, with no cache invalidation in between — still returns 5, not
the updated count, refuting "always performs a fresh probe / never served
from the response cache". -/
theorem C9_counterexample :
    (get_available_requests exState none).1 = 5 ∧
    exStateConsumed.rateRemaining = 3 ∧
    (get_available_requests exStateConsumed
      (get_available_requests exState none).2).1 = 5 ∧
    (get_available_requests exStateConsumed
        (get_available_requests exState none).2).1 ≠
      exStateConsumed.rateRemaining :=
  ⟨rfl, rfl, rfl, by decide⟩

/-- C9 as amended: `get_available_requests` returns the cached rate-limit
response when one is present and performs a fresh probe (storing the
response) only when the cache is empty — in particular directly after
`clear_cache`. -/
theorem C9_cached_rate_limit (st : RemoteState) (v : Nat) :
    (get_available_requests st (some v)).1 = v ∧
    (get_available_requests st (some v)).2 = some v ∧
    (get_available_requests st clear_cache).1 = st.rateRemaining ∧
    (get_available_requests st clear_cache).2 = some st.rateRemaining :=
  ⟨rfl, rfl, rfl, rfl⟩

/-- C10: every per-user map produced by `_list_user_repo_access` (hence by
`list_repo_access`), by the rows of `list_users`, and by the rows of
`list_outside_collaborators` is keyed exactly by the roster's short
repository names, in roster order — and no short name is a full
`owner/name` identifier. -/
theorem C10_keys_are_short_names (st : RemoteState) (u : String)
    (c : List (String × List String)) :
    keys (_list_user_repo_access st u c) = REPOSITORIES.map repoName ∧
    (∀ (login : String) (m : List (String × Access)),
      dlookup (list_outside_collaborators st) login = some m →
      keys m = REPOSITORIES.map repoName) ∧
    (∀ (us : List String) (x : String) (m : List (String × Access)),
      dlookup (list_users st us) x = some (some m) →
      keys m = REPOSITORIES.map repoName) ∧
    (∀ k ∈ REPOSITORIES.map repoName, k ∉ REPOSITORIES) := by
  refine ⟨keys_list_user_repo_access st u c, ?_, ?_, by decide⟩
  · intro login m hm
    rw [dlookup_list_outside_collaborators_some st hm, keys_scanUserMap]
  · intro us x m hm
    have h := dlookup_list_users_some st us hm
    unfold list_repo_access at h
    by_cases hx : st.userExists x = true
    · rw [if_pos hx] at h
      have hm2 : m = _list_user_repo_access st x
          (if LIST_USER_CACHE_THRESHOLD ≤ us.length then
            prefetch_collaborators st
          else []) := by
        cases h
        rfl
      rw [hm2, keys_list_user_repo_access]
    · rw [if_neg hx] at h
      cases h

/-- Witness for C10 at a concrete input. -/
theorem C10_witness :
    dlookup (list_outside_collaborators exState) "bob" =
      some (scanUserMap exState "bob") ∧
    keys (scanUserMap exState "bob") = REPOSITORIES.map repoName :=
  ⟨by decide,
    (C10_keys_are_short_names exState "bob" []).2.1 "bob"
      (scanUserMap exState "bob") (by decide)⟩
